import Mathlib

set_option maxRecDepth 10000

/-!
Shallow embedding of `src/How-to-validate-an-email-address-in-C.c`.

The candidate string is modelled as `List Char`; the absent (NULL) pointer of
the C interface is modelled by `Option (List Char)` with `none` for NULL.
`isspace` and `isalnum` are the C-locale classification functions, pinned to
their ASCII meaning as the design document requires.  The index-scanning
loops of the C function are embedded as the tail-recursive `count_last`;
`Int` keeps the `-1` sentinel the C code stores in `at_pos`/`last_dot_pos`
before any occurrence is seen.
-/

/-- Line 7 of the source: `#define MAX_EMAIL_LENGTH 256`. -/
def MAX_EMAIL_LENGTH : Nat := 256

/-- Line 8 of the source: `#define MIN_EMAIL_LENGTH 5`. -/
def MIN_EMAIL_LENGTH : Nat := 5

/-- C `isspace` in the C locale on ASCII input: space, horizontal tab, line
feed, vertical tab (11), form feed (12) and carriage return. -/
def isspace (c : Char) : Bool :=
  decide (c = ' ') || decide (c = '\t') || decide (c = '\n') ||
  decide (c.toNat = 11) || decide (c.toNat = 12) || decide (c = '\r')

/-- C `isalnum` in the C locale: ASCII digits and ASCII letters only. -/
def isalnum (c : Char) : Bool :=
  decide ('0' ≤ c ∧ c ≤ '9') || decide ('A' ≤ c ∧ c ≤ 'Z') ||
  decide ('a' ≤ c ∧ c ≤ 'z')

/-- The counting loops of `is_valid_email` (lines 49-58 with target `'@'`,
lines 97-102 with target `'.'`): starting at index `i` with loop variables
`count` and `pos`, count the occurrences of `t` and record the index of the
last one; `pos` keeps its initial value (`-1` at both call sites) when `t`
does not occur, exactly as in the C loops. -/
def count_last (t : Char) : List Char → Nat → Nat → Int → Nat × Int
  | [], _, count, pos => (count, pos)
  | c :: rest, i, count, pos =>
    if c = t then count_last t rest (i + 1) (count + 1) (Int.ofNat i)
    else count_last t rest (i + 1) count pos

/-- The adjacent-pair loops of `is_valid_email` (lines 77-81 over the local
part, lines 115-119 over the domain): true when two adjacent characters of
the list both equal `t`. -/
def has_adjacent (t : Char) : List Char → Bool
  | c1 :: c2 :: rest => (decide (c1 = t) && decide (c2 = t)) || has_adjacent t (c2 :: rest)
  | _ => false

/-- `is_valid_email` (lines 30-140 of the source), embedded check for check.
`none` is the NULL pointer (lines 32-34).  The single loop of lines 49-58
both counts `'@'` and returns `false` on the first whitespace character; as
the count is consulted only after the loop completes, this equals the
whitespace test followed by the full count, which is how it is rendered
here.  List indexing `getD` carries a default that is never reached: every
index is in range when it is consulted, guarded by the earlier checks just
as in the C code. -/
def is_valid_email : Option (List Char) → Bool
  | none => false
  | some email =>
    let len := email.length
    -- lines 40-42: length window
    if len < MIN_EMAIL_LENGTH ∨ len > MAX_EMAIL_LENGTH then false
    -- lines 49-58: whitespace rejection inside the scanning loop
    else if email.any isspace then false
    else
      -- lines 46-53: at_count and at_pos from the same loop
      let scan1 := count_last '@' email 0 0 (-1)
      let at_count := scan1.1
      -- lines 61-63
      if at_count ≠ 1 then false
      else
        let at_pos := scan1.2.toNat
        -- lines 66-68
        if at_pos = 0 ∨ at_pos = len - 1 then false
        -- lines 72-74
        else if email.getD 0 ' ' = '.' ∨ email.getD (at_pos - 1) ' ' = '.' then false
        -- lines 77-81
        else if has_adjacent '.' (email.take at_pos) then false
        else
          -- lines 84-85
          let domain := email.drop (at_pos + 1)
          let domain_len := len - at_pos - 1
          -- lines 88-91
          if domain.getD 0 ' ' = '.' ∨ domain.getD 0 ' ' = '-' ∨
             domain.getD (domain_len - 1) ' ' = '.' ∨ domain.getD (domain_len - 1) ' ' = '-' then false
          else
            -- lines 94-102
            let scan2 := count_last '.' domain 0 0 (-1)
            -- lines 105-107
            if scan2.1 = 0 then false
            else
              let last_dot_pos := scan2.2.toNat
              -- lines 110-112
              if domain_len - last_dot_pos - 1 < 2 then false
              -- lines 115-119
              else if has_adjacent '.' domain then false
              -- lines 123-128
              else if (email.take at_pos).any
                  (fun c => !(isalnum c || decide (c = '.') || decide (c = '-') ||
                              decide (c = '_') || decide (c = '+'))) then false
              -- lines 132-136
              else if domain.any
                  (fun c => !(isalnum c || decide (c = '.') || decide (c = '-'))) then false
              else true

/-!
The independent total check predicates.  These follow the wording of the
design document, section 4.1: each check is a total boolean predicate on the
whole candidate, defined over the local-part/domain-part slices, with no
shared scan state.  The refinement theorem below compares their conjunction
with the sequential first-failure evaluation of `is_valid_email`.
-/

/-- Index of the first occurrence of `t`, the length of the list when `t`
does not occur. -/
def first_idx (t : Char) : List Char → Nat
  | [] => 0
  | c :: rest => if c = t then 0 else first_idx t rest + 1

/-- Index of the last occurrence of `t` (meaningful only when `t` occurs). -/
def last_idx (t : Char) : List Char → Nat
  | [] => 0
  | _ :: rest => if 0 < rest.count t then last_idx t rest + 1 else 0

/-- The zero-based position `p` of the separating `'@'` (section 4.1,
check 4). -/
def at_idx (email : List Char) : Nat := first_idx '@' email

/-- The local part: the substring before the separating `'@'`. -/
def local_part (email : List Char) : List Char := email.take (at_idx email)

/-- The domain part: the substring after the separating `'@'`. -/
def domain_part (email : List Char) : List Char := email.drop (at_idx email + 1)

/-- The top-level domain: the substring of a domain after its last `'.'`. -/
def tld (d : List Char) : List Char := d.drop (last_idx '.' d + 1)

/-- Check 2: the length window, as the code enforces it. -/
def chk_length (e : List Char) : Bool :=
  decide (MIN_EMAIL_LENGTH ≤ e.length ∧ e.length ≤ MAX_EMAIL_LENGTH)

/-- Check 3: no whitespace anywhere in the candidate. -/
def chk_no_whitespace (e : List Char) : Bool := !(e.any isspace)

/-- Check 4: exactly one `'@'` in the whole candidate. -/
def chk_one_at (e : List Char) : Bool := decide (e.count '@' = 1)

/-- Check 5: the separator is not at an edge. -/
def chk_at_not_edge (e : List Char) : Bool :=
  decide (at_idx e ≠ 0 ∧ at_idx e ≠ e.length - 1)

/-- Check 6: the local part neither starts nor ends with `'.'`. -/
def chk_local_edge (e : List Char) : Bool :=
  !(decide ((local_part e).getD 0 ' ' = '.') || decide ((local_part e).getLastD ' ' = '.'))

/-- Check 7: no two adjacent `'.'` in the local part. -/
def chk_local_dots (e : List Char) : Bool := !(has_adjacent '.' (local_part e))

/-- Check 8: the domain part neither starts nor ends with `'.'` or `'-'`. -/
def chk_domain_edge (e : List Char) : Bool :=
  !(decide ((domain_part e).getD 0 ' ' = '.') || decide ((domain_part e).getD 0 ' ' = '-') ||
    decide ((domain_part e).getLastD ' ' = '.') || decide ((domain_part e).getLastD ' ' = '-'))

/-- Check 9: the domain part contains at least one `'.'`. -/
def chk_domain_has_dot (e : List Char) : Bool := decide (0 < (domain_part e).count '.')

/-- Check 10: the top-level domain has at least 2 characters. -/
def chk_tld (e : List Char) : Bool := decide (2 ≤ (tld (domain_part e)).length)

/-- Check 11: no two adjacent `'.'` in the domain part. -/
def chk_domain_dots (e : List Char) : Bool := !(has_adjacent '.' (domain_part e))

/-- The local-part character class of check 12: ASCII alphanumeric or one of
`. - _ +`. -/
def local_char_ok (c : Char) : Bool :=
  isalnum c || decide (c = '.') || decide (c = '-') || decide (c = '_') || decide (c = '+')

/-- The domain-part character class of check 13: ASCII alphanumeric or one of
`. -`. -/
def domain_char_ok (c : Char) : Bool :=
  isalnum c || decide (c = '.') || decide (c = '-')

/-- Check 12: every character of the local part is in its class. -/
def chk_local_class (e : List Char) : Bool := (local_part e).all local_char_ok

/-- Check 13: every character of the domain part is in its class. -/
def chk_domain_class (e : List Char) : Bool := (domain_part e).all domain_char_ok

/-- The conjunction of the twelve total checks (checks 2 to 13 of the design
document; check 1, the NULL guard, is the `none` case of the interface). -/
def all_checks (e : List Char) : Bool :=
  chk_length e && chk_no_whitespace e && chk_one_at e && chk_at_not_edge e &&
  chk_local_edge e && chk_local_dots e && chk_domain_edge e && chk_domain_has_dot e &&
  chk_tld e && chk_domain_dots e && chk_local_class e && chk_domain_class e

/-- A 256-character candidate that satisfies every structural check: local
part `a`, domain of 251 letters `b` followed by `.co`. -/
def email256 : List Char := ['a', '@'] ++ List.replicate 251 'b' ++ ['.', 'c', 'o']

/-! Basic lemmas about the scanning loop and the index functions. -/

theorem count_last_eq (t : Char) (l : List Char) : ∀ (i count : Nat) (pos : Int),
    count_last t l i count pos =
      (count + l.count t,
       if 0 < l.count t then Int.ofNat (i + last_idx t l) else pos) := by
  induction l with
  | nil => intro i count pos; simp [count_last, last_idx]
  | cons c rest ih =>
    intro i count pos
    by_cases hc : c = t
    · subst hc
      simp only [count_last]
      rw [if_pos trivial, ih, List.count_cons_self]
      simp only [last_idx]
      rw [if_pos (Nat.succ_pos (rest.count c)), Prod.mk.injEq]
      by_cases hr : 0 < rest.count c
      · simp only [if_pos hr]
        exact ⟨by omega, by congr 1; omega⟩
      · simp only [if_neg hr]
        exact ⟨by omega, rfl⟩
    · simp only [count_last]
      rw [if_neg hc, ih, List.count_cons_of_ne (fun h => hc h.symm)]
      simp only [last_idx]
      by_cases hr : 0 < rest.count t
      · simp only [if_pos hr, Prod.mk.injEq]
        refine ⟨trivial, ?_⟩
        congr 1
        omega
      · simp only [if_neg hr]

theorem first_idx_lt_length (t : Char) (l : List Char) (h : 0 < l.count t) :
    first_idx t l < l.length := by
  induction l with
  | nil => simp at h
  | cons c rest ih =>
    by_cases hc : c = t
    · simp [first_idx, hc]
    · simp only [first_idx, if_neg hc, List.length_cons]
      have : 0 < rest.count t := by
        rwa [List.count_cons_of_ne (fun hh => hc hh.symm)] at h
      exact Nat.succ_lt_succ (ih this)

theorem getD_first_idx (t : Char) (l : List Char) (d : Char) (h : 0 < l.count t) :
    l.getD (first_idx t l) d = t := by
  induction l with
  | nil => simp at h
  | cons c rest ih =>
    by_cases hc : c = t
    · simp [first_idx, hc]
    · simp only [first_idx, if_neg hc, List.getD_cons_succ]
      have : 0 < rest.count t := by
        rwa [List.count_cons_of_ne (fun hh => hc hh.symm)] at h
      exact ih this

theorem count_take_first (t : Char) (l : List Char) :
    (l.take (first_idx t l)).count t = 0 := by
  induction l with
  | nil => simp [first_idx]
  | cons c rest ih =>
    by_cases hc : c = t
    · simp [first_idx, hc]
    · simp only [first_idx, if_neg hc, List.take_succ_cons]
      rw [List.count_cons_of_ne (fun hh => hc hh.symm)]
      exact ih

theorem count_drop_first (t : Char) (l : List Char) (h : l.count t = 1) :
    (l.drop (first_idx t l + 1)).count t = 0 := by
  induction l with
  | nil => simp
  | cons c rest ih =>
    by_cases hc : c = t
    · subst hc
      rw [List.count_cons_self] at h
      simp [first_idx, Nat.succ_injective h]
    · rw [List.count_cons_of_ne (fun hh => hc hh.symm)] at h
      simp only [first_idx, if_neg hc, List.drop_succ_cons]
      exact ih h

theorem last_idx_eq_first_of_count_one (t : Char) (l : List Char) (h : l.count t = 1) :
    last_idx t l = first_idx t l := by
  induction l with
  | nil => rfl
  | cons c rest ih =>
    by_cases hc : c = t
    · subst hc
      rw [List.count_cons_self] at h
      have hz : rest.count c = 0 := Nat.succ_injective h
      simp [last_idx, first_idx, hz]
    · rw [List.count_cons_of_ne (fun hh => hc hh.symm)] at h
      simp [last_idx, first_idx, if_neg hc, h, ih h]

theorem last_idx_lt_length (t : Char) (l : List Char) (h : 0 < l.count t) :
    last_idx t l < l.length := by
  induction l with
  | nil => simp at h
  | cons c rest ih =>
    simp only [last_idx, List.length_cons]
    by_cases hr : 0 < rest.count t
    · simp only [if_pos hr]
      exact Nat.succ_lt_succ (ih hr)
    · rw [if_neg hr]
      exact Nat.succ_pos _

theorem decomp_first (t : Char) (l : List Char) (h : 0 < l.count t) :
    l = l.take (first_idx t l) ++ t :: l.drop (first_idx t l + 1) := by
  induction l with
  | nil => simp at h
  | cons c rest ih =>
    by_cases hc : c = t
    · simp [first_idx, hc]
    · have : 0 < rest.count t := by
        rwa [List.count_cons_of_ne (fun hh => hc hh.symm)] at h
      simp only [first_idx, if_neg hc, List.take_succ_cons, List.drop_succ_cons,
        List.cons_append]
      exact congrArg (c :: ·) (ih this)

theorem getD_take_of_lt (l : List Char) (n i : Nat) (d : Char) (h : i < n) :
    (l.take n).getD i d = l.getD i d := by
  induction l generalizing n i with
  | nil => simp
  | cons c rest ih =>
    cases n with
    | zero => omega
    | succ m =>
      cases i with
      | zero => simp
      | succ j =>
        simp only [List.take_succ_cons, List.getD_cons_succ]
        exact ih m j (Nat.lt_of_succ_lt_succ h)

theorem getD_default_of_lt (l : List Char) (n : Nat) (d1 d2 : Char)
    (h : n < l.length) : l.getD n d1 = l.getD n d2 := by
  induction l generalizing n with
  | nil => simp at h
  | cons c rest ih =>
    cases n with
    | zero => rfl
    | succ m =>
      simp only [List.getD_cons_succ]
      exact ih m (Nat.lt_of_succ_lt_succ h)

theorem getLastD_eq_getD (l : List Char) (d : Char) :
    l.getLastD d = l.getD (l.length - 1) d := by
  induction l generalizing d with
  | nil => rfl
  | cons c rest ih =>
    rcases rest with _ | ⟨c2, rest2⟩
    · rfl
    · rw [List.getLastD_cons, ih c]
      simp only [List.length_cons, Nat.succ_sub_one, List.getD_cons_succ]
      exact getD_default_of_lt _ _ c d (by simp)

theorem all_eq_not_any_not (l : List Char) (f : Char → Bool) :
    (l.any fun c => !(f c)) = !(l.all f) := by
  induction l with
  | nil => rfl
  | cons c rest ih => simp [List.any_cons, List.all_cons, ih]

theorem local_scan_eq (l : List Char) :
    (l.any fun c => !(isalnum c || decide (c = '.') || decide (c = '-') ||
                      decide (c = '_') || decide (c = '+'))) = !(l.all local_char_ok) := by
  rw [← all_eq_not_any_not]
  simp only [local_char_ok]

theorem domain_scan_eq (l : List Char) :
    (l.any fun c => !(isalnum c || decide (c = '.') || decide (c = '-'))) =
      !(l.all domain_char_ok) := by
  rw [← all_eq_not_any_not]
  simp only [domain_char_ok]

/-- The sequential first-failure evaluation of `is_valid_email` agrees with
the conjunction of the twelve independent total checks on every non-null
candidate. -/
theorem valid_some_eq (e : List Char) : is_valid_email (some e) = all_checks e := by
  simp only [is_valid_email, count_last_eq]
  by_cases h1 : e.length < MIN_EMAIL_LENGTH ∨ e.length > MAX_EMAIL_LENGTH
  · rw [if_pos h1]
    have hc : chk_length e = false := by
      simp only [chk_length, decide_eq_false_iff_not]
      simp only [MIN_EMAIL_LENGTH, MAX_EMAIL_LENGTH] at h1 ⊢
      omega
    simp [all_checks, hc]
  · rw [if_neg h1]
    have hlen : chk_length e = true := by
      simp only [chk_length, decide_eq_true_eq]
      simp only [MIN_EMAIL_LENGTH, MAX_EMAIL_LENGTH] at h1 ⊢
      omega
    by_cases h2 : e.any isspace = true
    · rw [if_pos h2]
      have hc : chk_no_whitespace e = false := by
        simp [chk_no_whitespace, h2]
      simp [all_checks, hc]
    · rw [if_neg h2]
      rw [Bool.not_eq_true] at h2
      have hws : chk_no_whitespace e = true := by
        simp [chk_no_whitespace, h2]
      by_cases h3 : List.count '@' e = 1
      · rw [if_neg (by omega : ¬(0 + List.count '@' e ≠ 1))]
        have hone : chk_one_at e = true := by
          simp [chk_one_at, h3]
        have hp : (if 0 < List.count '@' e then Int.ofNat (0 + last_idx '@' e)
            else (-1 : Int)).toNat = at_idx e := by
          rw [if_pos (by omega), last_idx_eq_first_of_count_one '@' e h3]
          simp [at_idx]
        rw [hp]
        have hplen : at_idx e < e.length := first_idx_lt_length '@' e (by omega)
        by_cases h4 : at_idx e = 0 ∨ at_idx e = e.length - 1
        · rw [if_pos h4]
          have hc : chk_at_not_edge e = false := by
            simp only [chk_at_not_edge, decide_eq_false_iff_not]
            tauto
          simp [all_checks, hc]
        · rw [if_neg h4]
          push_neg at h4
          obtain ⟨h4a, h4b⟩ := h4
          have hedge : chk_at_not_edge e = true := by
            simp only [chk_at_not_edge, decide_eq_true_eq]
            exact ⟨h4a, h4b⟩
          have hL0 : (local_part e).getD 0 ' ' = e.getD 0 ' ' := by
            simp only [local_part]
            exact getD_take_of_lt e (at_idx e) 0 ' ' (by omega)
          have hLlen : (local_part e).length = at_idx e := by
            simp only [local_part, List.length_take]
            omega
          have hL1 : (local_part e).getLastD ' ' = e.getD (at_idx e - 1) ' ' := by
            rw [getLastD_eq_getD, hLlen]
            simp only [local_part]
            exact getD_take_of_lt e (at_idx e) (at_idx e - 1) ' ' (by omega)
          by_cases h5 : e.getD 0 ' ' = '.' ∨ e.getD (at_idx e - 1) ' ' = '.'
          · rw [if_pos h5]
            have hc : chk_local_edge e = false := by
              simp only [chk_local_edge, hL0, hL1, Bool.not_eq_false',
                Bool.or_eq_true_iff, decide_eq_true_eq]
              exact h5
            simp [all_checks, hc]
          · rw [if_neg h5]
            push_neg at h5
            have hledge : chk_local_edge e = true := by
              simp only [chk_local_edge, hL0, hL1, Bool.not_eq_true',
                Bool.or_eq_false_iff, decide_eq_false_iff_not]
              exact ⟨h5.1, h5.2⟩
            by_cases h6 : has_adjacent '.' (List.take (at_idx e) e) = true
            · rw [if_pos h6]
              have hc : chk_local_dots e = false := by
                simp [chk_local_dots, local_part, h6]
              simp [all_checks, hc]
            · rw [if_neg h6]
              rw [Bool.not_eq_true] at h6
              have hldots : chk_local_dots e = true := by
                simp [chk_local_dots, local_part, h6]
              have hDlen : (List.drop (at_idx e + 1) e).length = e.length - at_idx e - 1 := by
                simp only [List.length_drop]
                omega
              have hDpos : 0 < (List.drop (at_idx e + 1) e).length := by
                rw [hDlen]
                omega
              have hDlast : (List.drop (at_idx e + 1) e).getLastD ' ' =
                  (List.drop (at_idx e + 1) e).getD (e.length - at_idx e - 1 - 1) ' ' := by
                rw [getLastD_eq_getD, hDlen]
              by_cases h7 : (List.drop (at_idx e + 1) e).getD 0 ' ' = '.' ∨
                  (List.drop (at_idx e + 1) e).getD 0 ' ' = '-' ∨
                  (List.drop (at_idx e + 1) e).getD (e.length - at_idx e - 1 - 1) ' ' = '.' ∨
                  (List.drop (at_idx e + 1) e).getD (e.length - at_idx e - 1 - 1) ' ' = '-'
              · rw [if_pos h7]
                have hc : chk_domain_edge e = false := by
                  simp only [chk_domain_edge, domain_part, hDlast, Bool.not_eq_false',
                    Bool.or_eq_true_iff, decide_eq_true_eq]
                  tauto
                simp [all_checks, hc]
              · rw [if_neg h7]
                push_neg at h7
                obtain ⟨h7a, h7b, h7c, h7d⟩ := h7
                have hdedge : chk_domain_edge e = true := by
                  simp only [chk_domain_edge, domain_part, hDlast, Bool.not_eq_true',
                    Bool.or_eq_false_iff, decide_eq_false_iff_not]
                  tauto
                by_cases h8 : List.count '.' (List.drop (at_idx e + 1) e) = 0
                · rw [if_pos (by omega : 0 + List.count '.' (List.drop (at_idx e + 1) e) = 0)]
                  have hc : chk_domain_has_dot e = false := by
                    simp only [chk_domain_has_dot, domain_part, decide_eq_false_iff_not]
                    omega
                  simp [all_checks, hc]
                · rw [if_neg (by omega : ¬(0 + List.count '.' (List.drop (at_idx e + 1) e) = 0))]
                  have hq : (if 0 < List.count '.' (List.drop (at_idx e + 1) e)
                      then Int.ofNat (0 + last_idx '.' (List.drop (at_idx e + 1) e))
                      else (-1 : Int)).toNat = last_idx '.' (List.drop (at_idx e + 1) e) := by
                    rw [if_pos (by omega)]
                    simp
                  rw [hq]
                  have hdot : chk_domain_has_dot e = true := by
                    simp only [chk_domain_has_dot, domain_part, decide_eq_true_eq]
                    omega
                  have htld : (tld (domain_part e)).length =
                      e.length - at_idx e - 1 - last_idx '.' (List.drop (at_idx e + 1) e) - 1 := by
                    simp only [tld, domain_part, List.length_drop]
                    omega
                  by_cases h9 : e.length - at_idx e - 1 -
                      last_idx '.' (List.drop (at_idx e + 1) e) - 1 < 2
                  · rw [if_pos h9]
                    have hc : chk_tld e = false := by
                      simp only [chk_tld, decide_eq_false_iff_not, htld]
                      omega
                    simp [all_checks, hc]
                  · rw [if_neg h9]
                    have htl : chk_tld e = true := by
                      simp only [chk_tld, decide_eq_true_eq, htld]
                      omega
                    by_cases h10 : has_adjacent '.' (List.drop (at_idx e + 1) e) = true
                    · rw [if_pos h10]
                      have hc : chk_domain_dots e = false := by
                        simp [chk_domain_dots, domain_part, h10]
                      simp [all_checks, hc]
                    · rw [if_neg h10]
                      rw [Bool.not_eq_true] at h10
                      have hddots : chk_domain_dots e = true := by
                        simp [chk_domain_dots, domain_part, h10]
                      rw [local_scan_eq, domain_scan_eq]
                      by_cases h11 : (List.take (at_idx e) e).all local_char_ok = true
                      · rw [h11]
                        have hlc : chk_local_class e = true := by
                          simp [chk_local_class, local_part, h11]
                        by_cases h12 : (List.drop (at_idx e + 1) e).all domain_char_ok = true
                        · rw [h12]
                          have hdc : chk_domain_class e = true := by
                            simp [chk_domain_class, domain_part, h12]
                          simp [all_checks, hlen, hws, hone, hedge, hledge, hldots, hdedge,
                            hdot, htl, hddots, hlc, hdc]
                        · rw [Bool.not_eq_true] at h12
                          rw [h12]
                          have hc : chk_domain_class e = false := by
                            simp [chk_domain_class, domain_part, h12]
                          simp [all_checks, hc]
                      · rw [Bool.not_eq_true] at h11
                        rw [h11]
                        have hc : chk_local_class e = false := by
                          simp [chk_local_class, local_part, h11]
                        simp [all_checks, hc]
      · rw [if_pos (by omega : 0 + List.count '@' e ≠ 1)]
        have hc : chk_one_at e = false := by
          simp [chk_one_at, h3]
        simp [all_checks, hc]

/-- The conjunction of checks, spelled as a propositional conjunction (order
of the conjuncts is immaterial). -/
theorem all_checks_true_iff (e : List Char) :
    all_checks e = true ↔
      (chk_length e = true ∧ chk_no_whitespace e = true ∧ chk_one_at e = true ∧
       chk_at_not_edge e = true ∧ chk_local_edge e = true ∧ chk_local_dots e = true ∧
       chk_domain_edge e = true ∧ chk_domain_has_dot e = true ∧ chk_tld e = true ∧
       chk_domain_dots e = true ∧ chk_local_class e = true ∧ chk_domain_class e = true) := by
  simp [all_checks, Bool.and_eq_true, and_assoc]

/-- C1: the verdict of `is_valid_email` equals the conjunction of the twelve
individual checks, each an independent total predicate on the candidate: for
every non-null candidate the sequential first-failure evaluation returns the
same boolean as the short-circuit conjunction of the predicates, and since
the propositional form is a plain conjunction the order of the conjuncts is
immaterial. -/
theorem C1_verdict_eq_conjunction (e : List Char) :
    is_valid_email (some e) =
      (chk_length e && chk_no_whitespace e && chk_one_at e && chk_at_not_edge e &&
       chk_local_edge e && chk_local_dots e && chk_domain_edge e && chk_domain_has_dot e &&
       chk_tld e && chk_domain_dots e && chk_local_class e && chk_domain_class e) ∧
    (is_valid_email (some e) = true ↔
      (chk_length e = true ∧ chk_no_whitespace e = true ∧ chk_one_at e = true ∧
       chk_at_not_edge e = true ∧ chk_local_edge e = true ∧ chk_local_dots e = true ∧
       chk_domain_edge e = true ∧ chk_domain_has_dot e = true ∧ chk_tld e = true ∧
       chk_domain_dots e = true ∧ chk_local_class e = true ∧ chk_domain_class e = true)) := by
  constructor
  · rw [valid_some_eq]
    rfl
  · rw [valid_some_eq]
    exact all_checks_true_iff e

/-- C2: every candidate shorter than the configured minimum (5) or longer
than the configured maximum (256) is rejected. -/
theorem C2_length_outside_window_rejected (e : List Char)
    (h : e.length < MIN_EMAIL_LENGTH ∨ MAX_EMAIL_LENGTH < e.length) :
    is_valid_email (some e) = false := by
  rw [valid_some_eq]
  have hc : chk_length e = false := by
    simp only [chk_length, decide_eq_false_iff_not]
    simp only [MIN_EMAIL_LENGTH, MAX_EMAIL_LENGTH] at h ⊢
    omega
  simp [all_checks, hc]

theorem C2_witness :
    (("abc".toList).length < MIN_EMAIL_LENGTH ∨ MAX_EMAIL_LENGTH < ("abc".toList).length) ∧
    is_valid_email (some ("abc".toList)) = false :=
  ⟨by decide, C2_length_outside_window_rejected _ (by decide)⟩

/-- C3 (counterexample): the claim says a candidate of length exactly 256 is
rejected; `email256` has length exactly 256 and is accepted, because the
length test of line 40 is `len > MAX_EMAIL_LENGTH`, an inclusive bound. -/
theorem C3_counterexample : email256.length = 256 ∧ is_valid_email (some email256) = true := by
  decide

/-- C3 (amended): the length bound is inclusive-inclusive over
`[MIN_LEN, MAX_LEN]` with defaults 5 and 256: every candidate whose length
lies anywhere in 5..256 (both ends included) and which passes every other
check is accepted, and candidates longer than 256 or shorter than 5 are
rejected. -/
theorem C3_length_bound_inclusive :
    (∀ e : List Char,
      MIN_EMAIL_LENGTH ≤ e.length → e.length ≤ MAX_EMAIL_LENGTH →
      chk_no_whitespace e = true → chk_one_at e = true → chk_at_not_edge e = true →
      chk_local_edge e = true → chk_local_dots e = true → chk_domain_edge e = true →
      chk_domain_has_dot e = true → chk_tld e = true → chk_domain_dots e = true →
      chk_local_class e = true → chk_domain_class e = true →
      is_valid_email (some e) = true) ∧
    (∀ e : List Char, MAX_EMAIL_LENGTH < e.length → is_valid_email (some e) = false) ∧
    (∀ e : List Char, e.length < MIN_EMAIL_LENGTH → is_valid_email (some e) = false) := by
  refine ⟨?_, ?_, ?_⟩
  · intro e hlo hhi h2 h3 h4 h5 h6 h7 h8 h9 h10 h11 h12
    rw [valid_some_eq]
    have hc : chk_length e = true := by
      simp only [chk_length, decide_eq_true_eq]
      exact ⟨hlo, hhi⟩
    simp [all_checks, hc, h2, h3, h4, h5, h6, h7, h8, h9, h10, h11, h12]
  · intro e h
    rw [valid_some_eq]
    have hc : chk_length e = false := by
      simp only [chk_length, decide_eq_false_iff_not]
      simp only [MAX_EMAIL_LENGTH] at h
      simp only [MIN_EMAIL_LENGTH, MAX_EMAIL_LENGTH]
      omega
    simp [all_checks, hc]
  · intro e h
    rw [valid_some_eq]
    have hc : chk_length e = false := by
      simp only [chk_length, decide_eq_false_iff_not]
      simp only [MIN_EMAIL_LENGTH] at h
      simp only [MIN_EMAIL_LENGTH, MAX_EMAIL_LENGTH]
      omega
    simp [all_checks, hc]

theorem C3_witness :
    (email256.length = MAX_EMAIL_LENGTH ∧ is_valid_email (some email256) = true) ∧
    (MAX_EMAIL_LENGTH < ('b' :: email256).length ∧
      is_valid_email (some ('b' :: email256)) = false) ∧
    (("a@b".toList).length < MIN_EMAIL_LENGTH ∧
      is_valid_email (some ("a@b".toList)) = false) :=
  ⟨⟨by decide,
    C3_length_bound_inclusive.1 email256 (by decide) (by decide) (by decide) (by decide)
      (by decide) (by decide) (by decide) (by decide) (by decide) (by decide) (by decide)
      (by decide) (by decide)⟩,
   ⟨by decide, C3_length_bound_inclusive.2.1 _ (by decide)⟩,
   ⟨by decide, C3_length_bound_inclusive.2.2 _ (by decide)⟩⟩

/-- C4: every candidate containing a whitespace character (per the C-locale
classification) anywhere is rejected. -/
theorem C4_whitespace_rejected (e : List Char) (c : Char) (hc : c ∈ e)
    (hw : isspace c = true) : is_valid_email (some e) = false := by
  rw [valid_some_eq]
  have h : chk_no_whitespace e = false := by
    simp only [chk_no_whitespace, Bool.not_eq_false', List.any_eq_true]
    exact ⟨c, hc, hw⟩
  simp [all_checks, h]

theorem C4_witness :
    (' ' ∈ "us er@example.com".toList ∧ isspace ' ' = true) ∧
    is_valid_email (some ("us er@example.com".toList)) = false :=
  ⟨⟨by decide, by decide⟩, C4_whitespace_rejected _ ' ' (by decide) (by decide)⟩

/-- C5: every candidate in which `'@'` occurs zero times or more than once
is rejected. -/
theorem C5_at_count_not_one_rejected (e : List Char)
    (h : List.count '@' e = 0 ∨ 1 < List.count '@' e) :
    is_valid_email (some e) = false := by
  rw [valid_some_eq]
  have hc : chk_one_at e = false := by
    simp only [chk_one_at, decide_eq_false_iff_not]
    omega
  simp [all_checks, hc]

theorem C5_witness :
    (List.count '@' ("user@@example.com".toList) = 0 ∨
      1 < List.count '@' ("user@@example.com".toList)) ∧
    is_valid_email (some ("user@@example.com".toList)) = false :=
  ⟨by decide, C5_at_count_not_one_rejected _ (by decide)⟩

/-- C6: the length of the top-level domain is the only TLD criterion: for a
candidate passing every other check, a TLD of length exactly 1 is rejected
and a TLD of length 2 or more is accepted; in particular
`user@example.c` is rejected. -/
theorem C6_tld_length_sole_criterion :
    (∀ e : List Char,
      chk_length e = true → chk_no_whitespace e = true → chk_one_at e = true →
      chk_at_not_edge e = true → chk_local_edge e = true → chk_local_dots e = true →
      chk_domain_edge e = true → chk_domain_has_dot e = true → chk_domain_dots e = true →
      chk_local_class e = true → chk_domain_class e = true →
      (((tld (domain_part e)).length = 1 → is_valid_email (some e) = false) ∧
       (2 ≤ (tld (domain_part e)).length → is_valid_email (some e) = true))) ∧
    is_valid_email (some ("user@example.c".toList)) = false := by
  constructor
  · intro e h1 h2 h3 h4 h5 h6 h7 h8 h10 h11 h12
    have hv : is_valid_email (some e) = chk_tld e := by
      rw [valid_some_eq]
      simp [all_checks, h1, h2, h3, h4, h5, h6, h7, h8, h10, h11, h12]
    constructor
    · intro ht
      rw [hv]
      simp only [chk_tld, decide_eq_false_iff_not]
      omega
    · intro ht
      rw [hv]
      simp only [chk_tld, decide_eq_true_eq]
      omega
  · decide

theorem C6_witness :
    is_valid_email (some ("user@example.co".toList)) = true :=
  (C6_tld_length_sole_criterion.1 ("user@example.co".toList) (by decide) (by decide)
    (by decide) (by decide) (by decide) (by decide) (by decide) (by decide) (by decide)
    (by decide) (by decide)).2 (by decide)

/-- C7 (counterexample): the claim asserts some candidate with `'_'` or
`'+'` in its domain part and every other check satisfied is accepted; no
such candidate exists, because the domain character class of lines 132-136
rejects both characters. -/
theorem C7_counterexample :
    ¬ ∃ e : List Char,
      ('_' ∈ domain_part e ∨ '+' ∈ domain_part e) ∧
      chk_length e = true ∧ chk_no_whitespace e = true ∧ chk_one_at e = true ∧
      chk_at_not_edge e = true ∧ chk_local_edge e = true ∧ chk_local_dots e = true ∧
      chk_domain_edge e = true ∧ chk_domain_has_dot e = true ∧ chk_tld e = true ∧
      chk_domain_dots e = true ∧ chk_local_class e = true ∧
      is_valid_email (some e) = true := by
  rintro ⟨e, hmem, -, -, -, -, -, -, -, -, -, -, -, hv⟩
  rw [valid_some_eq, all_checks_true_iff] at hv
  obtain ⟨-, -, -, -, -, -, -, -, -, -, -, hclass⟩ := hv
  simp only [chk_domain_class, List.all_eq_true] at hclass
  rcases hmem with hm | hm
  · exact absurd (hclass '_' hm) (by decide)
  · exact absurd (hclass '+' hm) (by decide)

/-- C7 (amended): the domain-part character-class check rejects underscores
and plus signs: every candidate whose domain part contains `'_'` or `'+'`
is rejected. -/
theorem C7_domain_underscore_plus_rejected (e : List Char)
    (h : '_' ∈ domain_part e ∨ '+' ∈ domain_part e) :
    is_valid_email (some e) = false := by
  by_contra hne
  have hv : is_valid_email (some e) = true := by
    revert hne
    cases is_valid_email (some e) <;> simp
  rw [valid_some_eq, all_checks_true_iff] at hv
  obtain ⟨-, -, -, -, -, -, -, -, -, -, -, hclass⟩ := hv
  simp only [chk_domain_class, List.all_eq_true] at hclass
  rcases h with hm | hm
  · exact absurd (hclass '_' hm) (by decide)
  · exact absurd (hclass '+' hm) (by decide)

theorem C7_witness :
    ('_' ∈ domain_part ("user@ex_ample.com".toList) ∨
      '+' ∈ domain_part ("user@ex_ample.com".toList)) ∧
    is_valid_email (some ("user@ex_ample.com".toList)) = false :=
  ⟨by decide, C7_domain_underscore_plus_rejected _ (by decide)⟩

/-- C8: the validator is total: the NULL candidate yields `false`, the empty
candidate yields `false`, and every call terminates in one of the two
boolean verdicts, with no other failure mode. -/
theorem C8_total_and_null_guard :
    is_valid_email none = false ∧ is_valid_email (some []) = false ∧
    (∀ e : Option (List Char), is_valid_email e = true ∨ is_valid_email e = false) := by
  refine ⟨rfl, by decide, ?_⟩
  intro e
  cases h : is_valid_email e
  · exact Or.inr rfl
  · exact Or.inl rfl

/-- C9: an accepted candidate contains `'@'` exactly once and every one of
its characters is an ASCII letter, an ASCII digit, or one of
`.`, `-`, `_`, `+`, `@`. -/
theorem C9_accepted_characters (e : List Char) (h : is_valid_email (some e) = true) :
    List.count '@' e = 1 ∧
    ∀ c ∈ e, isalnum c = true ∨ c = '.' ∨ c = '-' ∨ c = '_' ∨ c = '+' ∨ c = '@' := by
  rw [valid_some_eq, all_checks_true_iff] at h
  obtain ⟨-, -, hone, -, -, -, -, -, -, -, hlocal, hdomain⟩ := h
  have h1 : List.count '@' e = 1 := by
    simpa [chk_one_at] using hone
  refine ⟨h1, ?_⟩
  intro c hc
  have hd := decomp_first '@' e (by omega)
  rw [hd] at hc
  simp only [List.mem_append, List.mem_cons] at hc
  simp only [chk_local_class, List.all_eq_true, local_part, at_idx] at hlocal
  simp only [chk_domain_class, List.all_eq_true, domain_part, at_idx] at hdomain
  rcases hc with hc | hc | hc
  · have := hlocal c hc
    simp only [local_char_ok, Bool.or_eq_true, decide_eq_true_eq] at this
    tauto
  · subst hc
    tauto
  · have := hdomain c hc
    simp only [domain_char_ok, Bool.or_eq_true, decide_eq_true_eq] at this
    tauto

theorem C9_witness :
    List.count '@' ("user@example.com".toList) = 1 ∧
    ∀ c ∈ "user@example.com".toList,
      isalnum c = true ∨ c = '.' ∨ c = '-' ∨ c = '_' ∨ c = '+' ∨ c = '@' :=
  C9_accepted_characters _ (by decide)

/-- C10: only `'.'` is barred at the edges of the local part: candidates
whose local part ends with `'-'` or `'+'`, or begins with `'_'`, and which
satisfy every other check, are accepted. -/
theorem C10_local_edge_dash_underscore_plus_accepted :
    ((local_part ("user-@example.com".toList)).getLastD ' ' = '-' ∧
      is_valid_email (some ("user-@example.com".toList)) = true) ∧
    ((local_part ("_user@example.com".toList)).getD 0 ' ' = '_' ∧
      is_valid_email (some ("_user@example.com".toList)) = true) ∧
    ((local_part ("user+@example.com".toList)).getLastD ' ' = '+' ∧
      is_valid_email (some ("user+@example.com".toList)) = true) := by
  decide
